import Mathlib

/-!
Verification of the Quick Search browser extension core: the in-page
indexer and ranking engine (src/extension/content/content.js) and the
scope-limited background crawler (src/unnamed/part_003).

Modelling conventions: JS strings are `List Char`; the DOM is a tree of
element and text nodes; platform APIs (`toLowerCase`, `new URL`,
`innerText`, `encodeURIComponent`) are modelled by explicit total
functions noted at their definitions; the network is an oracle supplying
fetch-and-extract results.  All definitions are executable.
-/

/-- Shorthand turning a string literal into the `List Char` representation
used throughout the model. -/
def str (s : String) : List Char := s.toList

/-- Characters matched by the JS regex class `\s` (ASCII whitespace plus
NBSP; the wider Unicode space class is not exercised by the sources). -/
def jsWs (c : Char) : Bool :=
  c == ' ' || c == '\t' || c == '\n' || c == '\r' ||
  c == Char.ofNat 11 || c == Char.ofNat 12 || c == Char.ofNat 160

/-- Lowercasing, modelling JS `String.prototype.toLowerCase`. -/
def lowerL (s : List Char) : List Char := s.map Char.toLower

/-- Collapse every maximal whitespace run to one space: the
`replace(/\s+/g, ' ')` step used by `normalizeText` and others. -/
def squashWs : List Char → List Char
  | [] => []
  | [c] => if jsWs c then [' '] else [c]
  | c :: d :: rest =>
    if jsWs c then
      if jsWs d then squashWs (d :: rest) else ' ' :: squashWs (d :: rest)
    else c :: squashWs (d :: rest)

/-- JS `String.prototype.trim`: drop whitespace from both ends. -/
def trimWs (s : List Char) : List Char :=
  ((s.dropWhile jsWs).reverse.dropWhile jsWs).reverse

/-- The content script's `normalizeText(text)`: collapse whitespace runs,
then trim. -/
def normalizeText (s : List Char) : List Char := trimWs (squashWs s)

/-- First index at which `needle` occurs inside a list (JS
`String.prototype.indexOf`, with `none` for the JS result -1). -/
def indexOfSub (needle : List Char) : List Char → Option Nat
  | [] => if needle.isEmpty then some 0 else none
  | c :: rest =>
    if needle.isPrefixOf (c :: rest) then some 0
    else (indexOfSub needle rest).map (· + 1)

/-- The greedy subsequence scan from `scoreItem` (the `qi` cursor walking
the haystack once, advancing on every character match). -/
def subseqScan : List Char → List Char → Bool
  | _, [] => true
  | [], _ :: _ => false
  | h :: hs, c :: cs => if h == c then subseqScan hs cs else subseqScan hs (c :: cs)

/-- Heading tag test, `isHeadingElement` (`/^h[1-6]$/` on the lowercase
tag name). -/
def isHeadingTag (t : List Char) : Bool :=
  [str "h1", str "h2", str "h3", str "h4", str "h5", str "h6"].contains t

/-- One entry of the content script's in-memory page index.  Headings get
`parentTitle` `[]` (the source leaves the field undefined for them). -/
structure IndexEntry where
  id : List Char
  title : List Char
  level : List Char
  parentTitle : List Char
  searchText : List Char
deriving DecidableEq

/-- The haystack `scoreItem` matches against:
`(item.searchText || item.title || '').toLowerCase()`. -/
def scoreHaystack (item : IndexEntry) : List Char :=
  lowerL (if item.searchText.isEmpty then item.title else item.searchText)

/-- The heading bias of `scoreItem`:
`item.level && item.level[0] === 'h' ? 5 : 0`. -/
def scoreBase (item : IndexEntry) : Int :=
  if item.level.head? = some 'h' then 5 else 0

/-- `scoreItem(queryLower, item)` from content.js: the match score of one
index entry against an already normalized, lowercased query. -/
def scoreItem (queryLower : List Char) (item : IndexEntry) : Int :=
  let base := scoreBase item
  let haystack := scoreHaystack item
  if queryLower.isEmpty then 1 + base
  else if haystack = queryLower then 100 + base
  else if queryLower.isPrefixOf haystack then 80 + base
  else
    match indexOfSub queryLower haystack with
    | some idx => 60 - min (idx : Int) 50 + base
    | none => if subseqScan haystack queryLower then 30 + base else -1

/-- Score cascade written from the words of claim C1 (spec §4.1): the
same cases in the claim's order, applied to the entry's `searchText`,
with base 5 exactly for heading entries.  The normalized query is
lowercase, so the case-insensitive comparisons lowercase `searchText`. -/
def claimScore (queryLower : List Char) (item : IndexEntry) : Int :=
  let base : Int := if isHeadingTag item.level then 5 else 0
  let st := lowerL item.searchText
  if queryLower.isEmpty then 1 + base
  else if st = queryLower then 100 + base
  else if queryLower.isPrefixOf st then 80 + base
  else
    match indexOfSub queryLower st with
    | some idx => 60 - min (idx : Int) 50 + base
    | none => if subseqScan st queryLower then 30 + base else -1

/-! URL model.  `new URL(...)` is a host-browser API; this is a partial
model sufficient for the code's uses (host comparison, pathname and its
segments).  Userinfo and port are stripped from the host; dot-segment and
percent normalization are not modelled. -/

/-- Split a character list on `/`. -/
def splitSlash (l : List Char) : List (List Char) :=
  l.foldr
    (fun c acc =>
      if c == '/' then [] :: acc
      else
        match acc with
        | [] => [[c]]
        | a :: t => (c :: a) :: t)
    [[]]

/-- Parsed URL as the code consumes it: host and pathname. -/
structure UrlParts where
  host : List Char
  path : List Char
deriving DecidableEq

/-- Cut a path at the first query or fragment delimiter. -/
def cutPath (s : List Char) : List Char :=
  s.takeWhile (fun c => !(c == '?' || c == '#'))

/-- Scheme splitter: `scheme:rest` with an RFC 3986 scheme shape. -/
def schemeSplit (s : List Char) : Option (List Char × List Char) :=
  let pre := s.takeWhile (fun c => !(c == ':'))
  if pre.length < s.length ∧ !pre.isEmpty ∧
      (pre.headD 'a').isAlpha ∧
      pre.all (fun c => c.isAlphanum || c == '+' || c == '-' || c == '.') then
    some (pre, s.drop (pre.length + 1))
  else none

/-- Host portion of an authority: text after the last `@` and before the
first `:` (userinfo and port stripped), lowercased as JS does. -/
def hostOfAuthority (auth : List Char) : List Char :=
  lowerL (((auth.reverse.takeWhile (fun c => !(c == '@'))).reverse).takeWhile
    (fun c => !(c == ':')))

/-- Parse an authority-plus-path remainder (what follows `//`). -/
def parseAuthority (rest : List Char) : Option UrlParts :=
  let auth := rest.takeWhile (fun c => !(c == '/' || c == '?' || c == '#'))
  let afterAuth := rest.drop auth.length
  let host := hostOfAuthority auth
  if host.isEmpty then none
  else some { host := host, path := if afterAuth.isEmpty then ['/'] else cutPath afterAuth }

/-- Absolute URL parse (`new URL(raw)` with no base): returns the scheme
together with host/pathname, or `none` where the platform parser throws. -/
def parseUrlAbs (s : List Char) : Option (List Char × UrlParts) :=
  match schemeSplit s with
  | none => none
  | some (scheme, rest) =>
    if rest.take 2 = str "//" then
      match parseAuthority (rest.drop 2) with
      | none => none
      | some u => some (scheme, u)
    else some (scheme, { host := [], path := cutPath rest })

/-- Directory part of a base path (everything up to the final `/`). -/
def dirOfPath (p : List Char) : List Char :=
  (p.reverse.dropWhile (fun c => !(c == '/'))).reverse

/-- Base-relative URL parse, `new URL(s, base)`. -/
def parseUrlWithBase (s : List Char) (base : UrlParts) : Option UrlParts :=
  match parseUrlAbs s with
  | some (_, u) => some u
  | none =>
    if s.take 2 = str "//" then parseAuthority (s.drop 2)
    else if s.take 1 = ['/'] then some { host := base.host, path := cutPath s }
    else if s.isEmpty then some base
    else some { host := base.host, path := dirOfPath base.path ++ cutPath s }

/-- Last non-empty path segment (`pathname.split('/').filter(Boolean).pop()`). -/
def lastPathSegment (path : List Char) : List Char :=
  (((splitSlash path).filter (fun seg => !seg.isEmpty)).getLast?).getD []

example : parseUrlAbs (str "https://User@Ex.COM:8080/a/b?q#f") =
    some (str "https", { host := str "ex.com", path := str "/a/b" }) := by decide
example : parseUrlWithBase (str "x/y.pdf") { host := str "h", path := str "/a/b" } =
    some { host := str "h", path := str "/a/x/y.pdf" } := by decide
example : lastPathSegment (str "/a/b/c.txt/") = str "c.txt" := by decide

/-! DOM model and the Page Indexer (content.js). -/

/-- DOM node: element nodes carry their lowercase tag name, the optional
`data-ext-jump-id` marker attribute (kept apart from the other attributes
for direct access), remaining attributes, and children. -/
inductive DomNode where
  | text (s : List Char)
  | elem (tag : List Char) (mark : Option (List Char))
      (attrs : List (List Char × List Char)) (children : List DomNode)

/-- Concatenated text of a node list (`Node.textContent`). -/
def textContentL : List DomNode → List Char
  | [] => []
  | .text s :: rest => s ++ textContentL rest
  | .elem _ _ _ cs :: rest => textContentL cs ++ textContentL rest

/-- Text content of a single node. -/
def textContentN : DomNode → List Char
  | .text s => s
  | .elem _ _ _ cs => textContentL cs

/-- Attribute lookup (`getAttribute`; `none` for the JS `null`). -/
def getAttr (attrs : List (List Char × List Char)) (name : List Char) : Option (List Char) :=
  (attrs.find? (fun p => p.1 == name)).map (fun p => p.2)

/-- Push a piece only when truthy, as `if (x) pieces.push(x)` does. -/
def pushTruthy (x : Option (List Char)) : List (List Char) :=
  match x with
  | some s => if s.isEmpty then [] else [s]
  | none => []

/-- `getElementSearchText(el)`: visible text (the `innerText` rendering
API is modelled by its `textContent` fallback), aria-label, title
attribute, alt for images, and for anchors the last segment of the
resolved href with and without its extension; pieces are
whitespace-squashed and joined with a spaced em-space. -/
def getElementSearchText (base : UrlParts) (tag : List Char)
    (attrs : List (List Char × List Char)) (children : List DomNode) : List Char :=
  let visible := trimWs (textContentL children)
  let p1 := if visible.isEmpty then [] else [visible]
  let p2 := pushTruthy (getAttr attrs (str "aria-label"))
  let p3 := pushTruthy (getAttr attrs (str "title"))
  let p4 := if tag = str "img" then pushTruthy (getAttr attrs (str "alt")) else []
  let p5 :=
    if tag = str "a" then
      let href := (getAttr attrs (str "href")).getD []
      match parseUrlWithBase href base with
      | none => []
      | some u =>
        let last := lastPathSegment u.path
        if last.isEmpty then []
        else
          let dot := (indexOfSub [Char.ofNat 46] last.reverse).map
            (fun i => last.length - 1 - i)
          [last] ++
            match dot with
            | some d => if 0 < d then [last.take d] else []
            | none => []
    else []
  let pieces := p1 ++ p2 ++ p3 ++ p4 ++ p5
  List.intercalate [' ', Char.ofNat 8195, ' '] ((pieces.map squashWs).filter (fun s => !s.isEmpty))

/-- Id assignment of `ensureElementId`: keep an existing marker, else mint
`ext-jump-<counter+1>` and advance the counter. -/
def ensureId (mark : Option (List Char)) (counter : Nat) : List Char × Nat :=
  match mark with
  | some m => (m, counter)
  | none => (str "ext-jump-" ++ (Nat.repr (counter + 1)).toList, counter + 1)

/-- Recording gate for paragraphs: `if (!lastHeading) continue` then
`if (!text || text.length < 20) continue`. -/
def pGate (lastH : Option (List Char)) (txt : List Char) : Bool :=
  lastH.isSome && !(txt.isEmpty || txt.length < 20)

/-- Recording gate for anchors: `if (!lastHeading) continue` then
`if (!linkText) continue`. -/
def aGate (lastH : Option (List Char)) (linkText : List Char) : Bool :=
  lastH.isSome && !linkText.isEmpty

/-- The per-element step of the `buildIndex` walker loop: optionally an
entry, then the element's (possibly newly assigned) marker, the updated
id counter and the updated current-section title.  `parentTitle` is the
running `lastHeading` title (the source's
`lastHeading._extTitle || normalizeText(lastHeading.textContent) || ''`
always equals that stored title, because `_extTitle` is assigned it when
the heading is visited and the fallbacks only re-derive it). -/
def recordElem (base : UrlParts) (lastH : Option (List Char)) (counter : Nat)
    (tag : List Char) (mark : Option (List Char))
    (attrs : List (List Char × List Char)) (children : List DomNode) :
    Option IndexEntry × Option (List Char) × Nat × Option (List Char) :=
  if isHeadingTag tag then
    let title := normalizeText (textContentL children)
    let id := (ensureId mark counter).1
    (some { id := id, title := title, level := tag, parentTitle := [], searchText := title },
      some id, (ensureId mark counter).2, some title)
  else if tag = str "p" then
    let txt := normalizeText (textContentL children)
    if pGate lastH txt then
      let id := (ensureId mark counter).1
      let pt := lastH.getD []
      (some { id := id, title := txt, level := str "p", parentTitle := pt,
              searchText := (if pt.isEmpty then [] else pt ++ [' ']) ++ txt },
        some id, (ensureId mark counter).2, lastH)
    else (none, mark, counter, lastH)
  else if tag = str "a" then
    let lt := normalizeText (getElementSearchText base tag attrs children)
    if aGate lastH lt then
      let id := (ensureId mark counter).1
      let pt := lastH.getD []
      (some { id := id, title := lt, level := str "a", parentTitle := pt,
              searchText := (if pt.isEmpty then [] else pt ++ [' ']) ++ lt },
        some id, (ensureId mark counter).2, lastH)
    else (none, mark, counter, lastH)
  else (none, mark, counter, lastH)

/-- Accumulator of the `buildIndex` traversal: entries so far, the id
counter, and the current-section (`lastHeading`) title. -/
structure BuildAcc where
  entries : List IndexEntry
  counter : Nat
  lastH : Option (List Char)
deriving DecidableEq

/-- Document-order traversal of `buildIndex`: the tree walker visits the
root's descendants in preorder; each heading/paragraph/anchor element is
offered to `recordElem`, and newly assigned markers are written back into
the tree (the `ensureElementId` DOM side effect). -/
def visitL (base : UrlParts) : BuildAcc → List DomNode → BuildAcc × List DomNode
  | acc, [] => (acc, [])
  | acc, .text s :: rest =>
    let r := visitL base acc rest
    (r.1, .text s :: r.2)
  | acc, .elem t m a cs :: rest =>
    let step := recordElem base acc.lastH acc.counter t m a cs
    let acc1 : BuildAcc :=
      { entries := acc.entries ++ step.1.toList, counter := step.2.2.1, lastH := step.2.2.2 }
    let rcs := visitL base acc1 cs
    let rrest := visitL base rcs.1 rest
    (rrest.1, .elem t step.2.1 a rcs.2 :: rrest.2)

/-- Children of a node (the walk root's subtree excludes the root itself,
matching `TreeWalker.nextNode`). -/
def childrenOf : DomNode → List DomNode
  | .text _ => []
  | .elem _ _ _ cs => cs

/-- Replace a node's children (used to write the re-marked tree back). -/
def withChildren : DomNode → List DomNode → DomNode
  | .text s, _ => .text s
  | .elem t m a _, cs => .elem t m a cs

/-- State owned by one content-script instance: the frame location (kept
both raw, for `getFrameKey`, and parsed, as the URL-resolution base), the
document, the laziness flag and the cached index. -/
structure IndexerState where
  baseHref : List Char
  base : UrlParts
  root : DomNode
  isIndexed : Bool
  index : List IndexEntry

/-- `buildIndex()`: reset index and counter, walk the root's subtree in
document order recording entries and assigning missing markers, set the
indexed flag. -/
def buildIndexSt (st : IndexerState) : IndexerState :=
  let r := visitL st.base { entries := [], counter := 0, lastH := none } (childrenOf st.root)
  { st with root := withChildren st.root r.2, isIndexed := true, index := r.1.entries }

/-- Entry list produced by `buildIndex` on a given document. -/
def buildIndexEntries (base : UrlParts) (root : DomNode) : List IndexEntry :=
  (visitL base { entries := [], counter := 0, lastH := none } (childrenOf root)).1.entries

/-- Stable insertion step for the descending sort: a later element passes
earlier ones only while their keys are strictly greater. -/
def insertDescBy {α β : Type} [LinearOrder β] (key : α → β) (x : α) : List α → List α
  | [] => [x]
  | y :: ys => if key x < key y then y :: insertDescBy key x ys else x :: y :: ys

/-- Stable descending sort by a key, modelling JS `Array.prototype.sort`
with comparator `(a, b) => b.score - a.score` (the platform sort is
stable, and a stable sort under a total key order is unique). -/
def sortDescBy {α β : Type} [LinearOrder β] (key : α → β) : List α → List α
  | [] => []
  | x :: xs => insertDescBy key x (sortDescBy key xs)

/-- A scored index entry, the intermediate of `getSuggestions`. -/
structure ScoredItem where
  item : IndexEntry
  score : Int
deriving DecidableEq

/-- A suggestion as returned across the message boundary. -/
structure Suggestion where
  id : List Char
  rawId : List Char
  frameHref : List Char
  title : List Char
  level : List Char
deriving DecidableEq

/-- `truncateForDisplay(text, max = 120)`. -/
def truncateForDisplay (text : List Char) (mx : Nat) : List Char :=
  if text.isEmpty then []
  else if text.length ≤ mx then text
  else text.take (mx - 1) ++ [Char.ofNat 8230]

/-- Map a scored entry to its outgoing suggestion: paragraphs and links
get `parentTitle — truncated(title)`; the id is frame qualified. -/
def displaySuggestion (frameKey : List Char) (s : ScoredItem) : Suggestion :=
  let it := s.item
  let title :=
    if it.level = str "p" ∨ it.level = str "a" then
      (if it.parentTitle.isEmpty then [] else it.parentTitle ++ str " — ") ++
        truncateForDisplay it.title 120
    else it.title
  { id := frameKey ++ str "::" ++ it.id, rawId := it.id, frameHref := frameKey,
    title := title, level := it.level }

/-- Lazy-rebuild step at the head of `getSuggestions`:
`if (!isIndexed) buildIndex()`. -/
def freshState (st : IndexerState) : IndexerState :=
  if st.isIndexed then st else buildIndexSt st

/-- The scored-and-filtered list of `getSuggestions` (entries mapped to
scores against the normalized lowercased query, negatives dropped). -/
def scoredFor (st1 : IndexerState) (query : List Char) : List ScoredItem :=
  (st1.index.map
      (fun it => ScoredItem.mk it (scoreItem (lowerL (normalizeText query)) it))).filter
    (fun s => decide (0 ≤ s.score))

/-- The ranked list of `getSuggestions` before truncation. -/
def rankedFor (st1 : IndexerState) (query : List Char) : List ScoredItem :=
  sortDescBy (fun s => s.score) (scoredFor st1 query)

/-- `getSuggestions(query, limit)`: lazy rebuild, normalize, score,
filter, stable-sort descending, truncate (`limit ? slice : all`, so the
falsy limit 0 takes everything), map to display form.  Returns the
suggestions and the post-call state. -/
def getSuggestions (st : IndexerState) (query : List Char) (limit : Nat) :
    List Suggestion × IndexerState :=
  let st1 := freshState st
  let sorted := rankedFor st1 query
  let sliced := if limit ≠ 0 then sorted.take limit else sorted
  (sliced.map (displaySuggestion st1.baseHref), st1)

/-- Does any node of the list (in document order) carry the given marker
value?  Models `document.querySelector('[data-ext-jump-id="..."]')`
hitting an element (`CSS.escape` makes the attribute match literal). -/
def hasMarkL : List DomNode → List Char → Bool
  | [], _ => false
  | .text _ :: rest, m => hasMarkL rest m
  | .elem _ mk _ cs :: rest, m => mk == some m || hasMarkL cs m || hasMarkL rest m

/-- Marker lookup over the whole document tree. -/
def hasMark (n : DomNode) (m : List Char) : Bool :=
  match n with
  | .text _ => false
  | .elem _ mk _ cs => mk == some m || hasMarkL cs m

/-- Frame-qualifier strip of `scrollToId`:
`delim = id.indexOf('::'); if (delim > 0) rawId = id.slice(delim + 2)`. -/
def stripFrameQualifier (id : List Char) : List Char :=
  match indexOfSub (str "::") id with
  | some delim => if 0 < delim then id.drop (delim + 2) else id
  | none => id

/-- `scrollToId(id)`: strip a frame qualifier if present, look the marker
up, on a miss force one rebuild and retry once; report whether an element
was found (scrolling and highlighting are display effects the model
omits; neither can change the result). -/
def scrollToId (st : IndexerState) (id : List Char) : Bool × IndexerState :=
  let rawId := stripFrameQualifier id
  if hasMark st.root rawId then (true, st)
  else
    let st2 := buildIndexSt st
    (hasMark st2.root rawId, st2)

/-- Requests the content script consumes. -/
inductive ContentMsg where
  | suggestionsMsg (query : List Char) (limit : Nat)
  | scrollToMsg (id : List Char)

/-- Responses the content script produces (`sendResponse` payloads). -/
inductive ContentResp where
  | suggestions (items : List Suggestion)
  | scrolled (ok : Bool)
deriving DecidableEq

/-- The `chrome.runtime.onMessage` listener of the content script: both
request kinds always answer, `PAGE_JUMP_SCROLL_TO` with the boolean from
`scrollToId` (a miss is `ok: false`, never a thrown error). -/
def handleContentMsg (st : IndexerState) : ContentMsg → ContentResp × IndexerState
  | .suggestionsMsg q limit =>
    let r := getSuggestions st q limit
    (.suggestions r.1, r.2)
  | .scrollToMsg id =>
    let r := scrollToId st id
    (.scrolled r.1, r.2)

/-! Flat characterizations of the `buildIndex` traversal, and the
specification-side rebuild used by claims C4 and C7. -/

/-- Walker output: the heading/paragraph/anchor elements of a node list
in document order (preorder), as `TreeWalker.nextNode` yields them. -/
def walkL : List DomNode → List DomNode
  | [] => []
  | .text _ :: rest => walkL rest
  | .elem t m a cs :: rest =>
    (if isHeadingTag t || t = str "p" || t = str "a" then [DomNode.elem t m a cs] else []) ++
      walkL cs ++ walkL rest

/-- Walker output for a document root (the root itself is not visited). -/
def walkDoc (root : DomNode) : List DomNode := walkL (childrenOf root)

/-- The `buildIndex` loop as a flat fold over the walker output,
threading the `lastHeading` title and the id counter. -/
def foldBuild (base : UrlParts) (lastH : Option (List Char)) (counter : Nat) :
    List DomNode → List IndexEntry × Nat × Option (List Char)
  | [] => ([], counter, lastH)
  | .text _ :: rest => foldBuild base lastH counter rest
  | .elem t m a cs :: rest =>
    let step := recordElem base lastH counter t m a cs
    let r := foldBuild base step.2.2.2 step.2.2.1 rest
    (step.1.toList ++ r.1, r.2)

/-- Tag of a node (text nodes have none). -/
def nodeTag : DomNode → List Char
  | .text _ => []
  | .elem t _ _ _ => t

/-- Is this node a heading element? -/
def isHeadingNodeB (n : DomNode) : Bool := isHeadingTag (nodeTag n)

/-- Normalized text of the nearest heading element strictly before a
point of the document-order walk — the words of claims C4 and C7
(`none` when no heading precedes). -/
def nearestHeadingTitle (pre : List DomNode) : Option (List Char) :=
  ((pre.filter isHeadingNodeB).getLast?).map (fun n => normalizeText (textContentN n))

/-- Specification-side rebuild: entries are emitted in walker (document)
order, and every step recomputes the current section as the nearest
preceding heading of the processed prefix instead of threading it. -/
def specBuildGo (base : UrlParts) (pre : List DomNode) (counter : Nat) :
    List DomNode → List IndexEntry
  | [] => []
  | .text s :: rest => specBuildGo base (pre ++ [.text s]) counter rest
  | .elem t m a cs :: rest =>
    let step := recordElem base (nearestHeadingTitle pre) counter t m a cs
    step.1.toList ++ specBuildGo base (pre ++ [.elem t m a cs]) step.2.2.1 rest

/-- Specification-side rebuild over a full walk. -/
def specBuild (base : UrlParts) (w : List DomNode) : List IndexEntry :=
  specBuildGo base [] 0 w

/-! Scope Crawler (src/unnamed/part_003). -/

/-- Pages indexed per individual crawl session. -/
def MAX_PAGES_PER_CRAWL : Nat := 60

/-- Worker pool size. -/
def MAX_CONCURRENT : Nat := 4

/-- One record of a scope's page map.  The source also stores a `ts`
wall-clock stamp (`Date.now()`), which no claim touches and real time
cannot be embedded. -/
structure PageRec where
  title : List Char
  text : List Char
  url : List Char
deriving DecidableEq

/-- `scopeFromUrl(raw)`: origin, host and the top path segment prefix. -/
structure ScopeRec where
  origin : List Char
  host : List Char
  scopePath : List Char
deriving DecidableEq

/-- Derive the crawl scope of a URL: `/<firstSegment>/`, or `/` when the
path has no non-empty segment; `none` when URL parsing throws. -/
def scopeFromUrl (raw : List Char) : Option ScopeRec :=
  match parseUrlAbs raw with
  | none => none
  | some (scheme, u) =>
    let parts := (splitSlash u.path).filter (fun s => !s.isEmpty)
    let scopePath :=
      match parts with
      | [] => ['/']
      | p0 :: _ => '/' :: (p0 ++ ['/'])
    some { origin := scheme ++ str "://" ++ u.host, host := u.host, scopePath := scopePath }

/-- `makeScopeKey(url)` = `host|scopePath`, or `none` for unparseable URLs. -/
def makeScopeKey (url : List Char) : Option (List Char) :=
  match scopeFromUrl url with
  | none => none
  | some s => some (s.host ++ ['|'] ++ s.scopePath)

/-- `inScope(url, scope)`: resolve against `scope.origin + '/'` (a base
whose host is the scope host and whose path is `/`) and require the same
host and a pathname extending the scope path prefix. -/
def inScopeB (url : List Char) (scope : ScopeRec) : Bool :=
  match parseUrlWithBase url { host := scope.host, path := ['/'] } with
  | none => false
  | some u => u.host == scope.host && scope.scopePath.isPrefixOf u.path

/-- Result of one successful fetch-and-extract, as the network oracle
supplies it to a session (`fetchPage` returning non-null: the page title,
stripped text, and extracted absolute link URLs). -/
structure PageData where
  title : List Char
  text : List Char
  links : List (List Char)
deriving DecidableEq

/-- State of one pooled worker: suspended at the fetch of a URL, or its
loop exited. -/
inductive WStatus where
  | fetching (url : List Char)
  | done
deriving DecidableEq

/-- State of one crawl session: scope, worker pool, shared queue and
visited set, the scope's page map, the session page counter, and (model
instrumentation) the log of every URL the session has enqueued. -/
structure CrawlSt where
  scope : ScopeRec
  workers : List WStatus
  queue : List (List Char)
  visited : List (List Char)
  pageMap : List (List Char × PageRec)
  pages : Nat
  enqLog : List (List Char)
deriving DecidableEq

/-- `Map.has` on the insertion-ordered page map. -/
def mapHas (m : List (List Char × PageRec)) (k : List Char) : Bool :=
  m.any (fun p => p.1 == k)

/-- `Map.set`: overwrite in place, else append. -/
def mapSet (m : List (List Char × PageRec)) (k : List Char) (v : PageRec) :
    List (List Char × PageRec) :=
  if mapHas m k then m.map (fun p => if p.1 == k then (k, v) else p) else m ++ [(k, v)]

/-- The synchronous part of the worker loop: repeatedly check
`queue.length && pagesThisSession < MAX_PAGES_PER_CRAWL`, shift a URL,
skip it when falsy, already visited or already in the page map; stop at
the first URL to fetch (marked visited) or when the loop exits.  Returns
the URL to fetch (if any), the remaining queue and the visited set. -/
def spin (pages : Nat) : List (List Char) → List (List Char) →
    List (List Char × PageRec) → Option (List Char) × List (List Char) × List (List Char)
  | [], visited, _ => (none, [], visited)
  | u :: rest, visited, pm =>
    if MAX_PAGES_PER_CRAWL ≤ pages then (none, u :: rest, visited)
    else if u.isEmpty || visited.contains u || mapHas pm u then spin pages rest visited pm
    else (some u, rest, u :: visited)

/-- The dispatch loop `for (i = 0; i < Math.min(MAX_CONCURRENT, 6); i++)
worker()`: each `worker()` call runs synchronously up to its first
`await fetchPage(...)` (or exits at once when the loop condition fails,
as workers after the first do, the single seed having been consumed). -/
def startWorkers : Nat → CrawlSt → CrawlSt
  | 0, st => st
  | n + 1, st =>
    match spin st.pages st.queue st.visited st.pageMap with
    | (some u, q1, v1) =>
      startWorkers n
        { st with workers := st.workers ++ [WStatus.fetching u], queue := q1, visited := v1 }
    | (none, q1, v1) =>
      startWorkers n
        { st with workers := st.workers ++ [WStatus.done], queue := q1, visited := v1 }

/-- `crawl(startUrl)` up to its first suspension: derive the scope
(`none` mirrors the early `return` on an unparseable URL), seed the
queue, reuse or create the scope's page map (`prior`), and dispatch the
worker pool. -/
def startSession (startUrl : List Char) (prior : List (List Char × PageRec)) :
    Option CrawlSt :=
  match scopeFromUrl startUrl with
  | none => none
  | some scope =>
    some (startWorkers (min MAX_CONCURRENT 6)
      { scope := scope, workers := [], queue := [startUrl], visited := [],
        pageMap := prior, pages := 0, enqLog := [] })

/-- The `if (page)` body of the worker loop: on a successful fetch the
page is written to the scope map, the session counter bumped, and those
extracted links that are in scope, unvisited and not yet indexed are
enqueued (logged in `enqLog`); a failed fetch changes nothing. -/
def applyFetch (st : CrawlSt) (u : List Char) (resp : Option PageData) : CrawlSt :=
  match resp with
  | some p =>
    let pm := mapSet st.pageMap u { title := p.title, text := p.text, url := u }
    let fresh := p.links.filter
      (fun l => inScopeB l st.scope && !st.visited.contains l && !mapHas pm l)
    { st with pageMap := pm, pages := st.pages + 1,
              queue := st.queue ++ fresh, enqLog := st.enqLog ++ fresh }
  | none => st

/-- The worker's synchronous continuation after a fetch: its loop spins
to the next fetch (becoming `fetching`) or exits (becoming `done`). -/
def respinWorker (st1 : CrawlSt) (w : Nat) : CrawlSt :=
  match spin st1.pages st1.queue st1.visited st1.pageMap with
  | (some u2, q1, v1) =>
    { st1 with workers := st1.workers.set w (WStatus.fetching u2), queue := q1, visited := v1 }
  | (none, q1, v1) =>
    { st1 with workers := st1.workers.set w WStatus.done, queue := q1, visited := v1 }

/-- One fetch completion delivered to worker `w` (`resp = none` is a
failed, non-2xx or non-HTML fetch): apply the fetch result, then the
worker continues its loop. -/
def crawlStep (st : CrawlSt) (w : Nat) (resp : Option PageData) : CrawlSt :=
  match st.workers.get? w with
  | some (WStatus.fetching u) => respinWorker (applyFetch st u resp) w
  | _ => st

/-- A whole session execution: fetch completions in the order the
environment resolves them, each carrying the oracle's extract result.
Entries naming a worker that is not mid-fetch are no-ops. -/
def runCrawl (st : CrawlSt) (sched : List (Nat × Option PageData)) : CrawlSt :=
  sched.foldl (fun s e => crawlStep s e.1 e.2) st

/-- `score(query, text, title)` of the crawler's search.  The JS
`idx / 50` is number division, modelled exactly by rationals (distinct
rational scores differ by at least 1/50, far above double rounding, so
orderings agree). -/
def crawlScore (query text title : List Char) : ℚ :=
  let q := lowerL query
  if q.isEmpty then 0
  else
    let t := lowerL title
    let body := lowerL text
    let s1 : ℚ := if q.isPrefixOf t then 30 else 0
    let s2 : ℚ := if (indexOfSub q t).isSome then 20 else 0
    let s3 : ℚ :=
      match indexOfSub q body with
      | some idx => 10 + max 0 (20 - (idx : ℚ) / 50)
      | none => 0
    s1 + s2 + s3

/-- Score formula written from the words of claim C6 (spec §4.2 Search):
+30 for a title starting with the lowercased query, additively +20 for a
title containing it, plus `10 + max(0, 20 - matchIndex/50)` when the body
contains it at `matchIndex`; 0 for the empty query. -/
def claimCrawlScore (query text title : List Char) : ℚ :=
  if (lowerL query).isEmpty then 0
  else
    (if (lowerL query).isPrefixOf (lowerL title) then 30 else 0) +
      (if (indexOfSub (lowerL query) (lowerL title)).isSome then 20 else 0) +
      match indexOfSub (lowerL query) (lowerL text) with
      | some idx => 10 + max 0 (20 - (idx : ℚ) / 50)
      | none => 0

/-- One scored search hit before display mapping. -/
structure CrawlItem where
  url : List Char
  title : List Char
  score : ℚ
  text : List Char
deriving DecidableEq

/-- The `CRAWL_SEARCH` accumulation loop: score every page of the scope
map in insertion order and keep those with positive score
(`if (s > 0) items.push(...)`, title falling back to the URL). -/
def searchItems (pm : List (List Char × PageRec)) (query : List Char) : List CrawlItem :=
  pm.filterMap (fun e =>
    let s := crawlScore query e.2.text e.2.title
    if 0 < s then
      some { url := e.1, title := if e.2.title.isEmpty then e.1 else e.2.title,
             score := s, text := e.2.text }
    else none)

/-- Search hits sorted descending by score (stable platform sort). -/
def sortedItems (pm : List (List Char × PageRec)) (query : List Char) : List CrawlItem :=
  sortDescBy (fun it => it.score) (searchItems pm query)

/-- Hex digit for the percent-encoder. -/
def hexDigit (n : Nat) : Char := ((str "0123456789ABCDEF").getD n '0')

/-- ASCII-level model of `encodeURIComponent`: unreserved characters kept
verbatim, everything else percent-encoded from its code point. -/
def encodeURIComponentL (s : List Char) : List Char :=
  (s.map (fun c =>
    if c.isAlphanum || (str "-_.!~*()" ++ [Char.ofNat 39]).contains c then [c]
    else ['%', hexDigit (c.toNat / 16 % 16), hexDigit (c.toNat % 16)])).flatten

/-- `buildTextFragment(text, query)`: a `#:~:text=` anchor from a window
of 20 characters before to 80 after the first case-insensitive match. -/
def buildTextFragment (text query : List Char) : List Char :=
  if text.isEmpty || query.isEmpty then []
  else
    match indexOfSub (lowerL query) (lowerL text) with
    | none => []
    | some i =>
      let frag := trimWs (squashWs ((text.drop (i - 20)).take (min text.length (i + 80) - (i - 20))))
      str "#:~:text=" ++ encodeURIComponentL frag

/-- One `CRAWL_SEARCH` result row. -/
structure CrawlResult where
  id : List Char
  level : List Char
  title : List Char
  url : List Char
  fragment : List Char
deriving DecidableEq

/-- The `CRAWL_SEARCH` handler on a scope's page map: positive-score
pages sorted descending, capped at 20, mapped to display rows. -/
def crawlSearch (pm : List (List Char × PageRec)) (query : List Char) : List CrawlResult :=
  ((sortedItems pm query).take 20).map (fun it =>
    { id := str "crawl:" ++ it.url, level := str "site",
      title := it.title ++ str " — " ++ it.url, url := it.url,
      fragment := buildTextFragment it.text query })

/-- Background-process state relevant to session tracking: the tracked
crawl handle (whose scope key is itself nullable, as
`makeScopeKey` can return null and the source stores it anyway). -/
structure BgState where
  currentCrawl : Option (Option (List Char))
deriving DecidableEq

/-- `CRAWL_START` responses. -/
inductive StartResp where
  | running (scopeKey : Option (List Char))
  | started (scopeKey : Option (List Char))
deriving DecidableEq

/-- The `CRAWL_START` handler: when the tracked handle has the same scope
key, reply `running` and invoke nothing; otherwise invoke `crawl` once
and track the new handle.  The last component counts the `crawl()`
invocations the handler makes. -/
def handleCrawlStart (st : BgState) (startUrl : List Char) : StartResp × BgState × Nat :=
  let scopeKey := makeScopeKey startUrl
  match st.currentCrawl with
  | some k =>
    if k = scopeKey then (StartResp.running scopeKey, st, 0)
    else (StartResp.started scopeKey, { currentCrawl := some scopeKey }, 1)
  | none => (StartResp.started scopeKey, { currentCrawl := some scopeKey }, 1)

/-- The `chrome.tabs.onUpdated` listener: on a completed navigation with
a URL, drop the tracked handle when its scope differs, then — when the
new scope key is non-null and not the tracked one — auto-start crawling.
The last component again counts `crawl()` invocations: this path invokes
`crawl(tab.url)` twice, once discarded (the bare
`crawl(tab.url).then(...)` statement) and once stored in the tracked
handle's `promise`. -/
def handleTabUpdated (st : BgState) (status : List Char) (tabUrl : Option (List Char)) :
    BgState × Nat :=
  match tabUrl with
  | some u =>
    if status = str "complete" ∧ ¬u.isEmpty then
      let newKey := makeScopeKey u
      let cur1 : Option (Option (List Char)) :=
        match st.currentCrawl with
        | some k => if k ≠ newKey then none else some k
        | none => none
      if newKey.isSome ∧ (cur1 = none ∨ cur1 ≠ some newKey) then
        ({ currentCrawl := some newKey }, 2)
      else ({ currentCrawl := cur1 }, 0)
    else (st, 0)
  | none => (st, 0)

/-- Well-formedness every `buildIndex` entry enjoys: an empty
`searchText` forces an empty `title` (so the `searchText || title`
fallback in `scoreItem` is immaterial), and the `level[0] === 'h'` test
coincides with being a heading tag. -/
def entryWf (e : IndexEntry) : Prop :=
  (e.searchText.isEmpty = true → e.title.isEmpty = true) ∧
    (e.level.head? = some 'h' ↔ isHeadingTag e.level = true)

/-- Inductive invariant of a crawl session: the page counter respects the
cap, any mid-fetch worker still has room for its pending increment, at
most one worker is ever mid-fetch (the dispatch loop leaves only worker 0
alive: the others find the queue already empty), and everything the
session has enqueued was in scope. -/
def crawlInv (st : CrawlSt) : Prop :=
  st.pages ≤ MAX_PAGES_PER_CRAWL ∧
  (∀ i u, st.workers.get? i = some (WStatus.fetching u) → st.pages + 1 ≤ MAX_PAGES_PER_CRAWL) ∧
  (∀ i j u v, st.workers.get? i = some (WStatus.fetching u) →
    st.workers.get? j = some (WStatus.fetching v) → i = j) ∧
  (∀ u ∈ st.enqLog, inScopeB u st.scope = true)

/-- The session state right after `crawl("https://h/c/s")` dispatches its
workers (used to instantiate claim C3). -/
def c3Start : CrawlSt :=
  { scope := { origin := str "https://h", host := str "h", scopePath := str "/c/" },
    workers := [WStatus.fetching (str "https://h/c/s"), WStatus.done, WStatus.done, WStatus.done],
    queue := [], visited := [str "https://h/c/s"], pageMap := [], pages := 0, enqLog := [] }

example : makeScopeKey (str "https://a.com/courses/101") = some (str "a.com|/courses/") := by decide
example : makeScopeKey (str "https://a.com/courses/202") = some (str "a.com|/courses/") := by decide
example : makeScopeKey (str "https://a.com/blog/1") = some (str "a.com|/blog/") := by decide
example : inScopeB (str "https://a.com/courses/x") { origin := str "https://a.com", host := str "a.com", scopePath := str "/courses/" } = true := by decide
example : inScopeB (str "https://a.com/blog/x") { origin := str "https://a.com", host := str "a.com", scopePath := str "/courses/" } = false := by decide
example : crawlScore (str "q") (str "xq") (str "qt") = 30 + 20 + (10 + (20 - 1/50)) := by
  have h1 : (lowerL (str "q")).isEmpty = false := by decide
  have h2 : (lowerL (str "q")).isPrefixOf (lowerL (str "qt")) = true := by decide
  have h3 : (indexOfSub (lowerL (str "q")) (lowerL (str "qt"))).isSome = true := by decide
  have h4 : indexOfSub (lowerL (str "q")) (lowerL (str "xq")) = some 1 := by decide
  simp only [crawlScore, h1, h2, h3, h4, Bool.false_eq_true, if_false, if_true, ite_true,
    ite_false, Nat.cast_one]
  norm_num [max_def]

/-- Concrete one-heading document used to instantiate claim C1. -/
def c1Root : DomNode :=
  DomNode.elem (str "body") none []
    [DomNode.elem (str "h1") none [] [DomNode.text (str "Hi")]]

/-- Concrete heading-plus-paragraph document used to instantiate claim C7
(the paragraph's normalized text has 23 characters). -/
def c7Root : DomNode :=
  DomNode.elem (str "body") none []
    [DomNode.elem (str "h1") none [] [DomNode.text (str "Hi")],
     DomNode.elem (str "p") none [] [DomNode.text (str "This paragraph is long.")]]

/-- Concrete document with an anchor entry used to instantiate claim C8's
state. -/
def c8Root : DomNode :=
  DomNode.elem (str "body") none []
    [DomNode.elem (str "h1") none [] [DomNode.text (str "Hi")]]

/-! Theorems.  First: properties of the stable descending sort. -/

theorem length_insertDescBy {α β : Type} [LinearOrder β] (key : α → β) (x : α) (l : List α) :
    (insertDescBy key x l).length = l.length + 1 := by
  induction l with
  | nil => simp [insertDescBy]
  | cons y ys ih =>
    by_cases h : key x < key y <;> simp [insertDescBy, h, ih]

theorem length_sortDescBy {α β : Type} [LinearOrder β] (key : α → β) (l : List α) :
    (sortDescBy key l).length = l.length := by
  induction l with
  | nil => rfl
  | cons x xs ih => simp [sortDescBy, length_insertDescBy, ih]

theorem mem_insertDescBy {α β : Type} [LinearOrder β] (key : α → β) (x a : α) (l : List α) :
    a ∈ insertDescBy key x l ↔ a = x ∨ a ∈ l := by
  induction l with
  | nil => simp [insertDescBy]
  | cons y ys ih =>
    by_cases h : key x < key y <;> simp [insertDescBy, h, ih] <;> tauto

theorem mem_sortDescBy {α β : Type} [LinearOrder β] (key : α → β) (a : α) (l : List α) :
    a ∈ sortDescBy key l ↔ a ∈ l := by
  induction l with
  | nil => simp [sortDescBy]
  | cons x xs ih => simp [sortDescBy, mem_insertDescBy, ih]

theorem pairwise_insertDescBy {α β : Type} [LinearOrder β] (key : α → β) (x : α) (l : List α)
    (hl : l.Pairwise (fun a b => key b ≤ key a)) :
    (insertDescBy key x l).Pairwise (fun a b => key b ≤ key a) := by
  induction l with
  | nil => simp [insertDescBy]
  | cons y ys ih =>
    rcases List.pairwise_cons.mp hl with ⟨hy, hys⟩
    by_cases h : key x < key y
    · rw [insertDescBy, if_pos h]
      refine List.pairwise_cons.mpr ⟨?_, ih hys⟩
      intro z hz
      rcases (mem_insertDescBy key x z ys).mp hz with rfl | hz
      · exact le_of_lt h
      · exact hy z hz
    · rw [insertDescBy, if_neg h]
      refine List.pairwise_cons.mpr ⟨?_, hl⟩
      intro z hz
      rcases List.mem_cons.mp hz with rfl | hz
      · exact le_of_not_lt h
      · exact le_trans (hy z hz) (le_of_not_lt h)

theorem pairwise_sortDescBy {α β : Type} [LinearOrder β] (key : α → β) (l : List α) :
    (sortDescBy key l).Pairwise (fun a b => key b ≤ key a) := by
  induction l with
  | nil => simp [sortDescBy]
  | cons x xs ih => exact pairwise_insertDescBy key x _ ih

theorem filter_insertDescBy_of_eq {α β : Type} [LinearOrder β] (key : α → β) (x : α)
    (l : List α) (k : β) (hx : key x = k) :
    (insertDescBy key x l).filter (fun a => decide (key a = k)) =
      x :: l.filter (fun a => decide (key a = k)) := by
  induction l with
  | nil => simp [insertDescBy, hx]
  | cons y ys ih =>
    by_cases h : key x < key y
    · have hy : ¬(key y = k) := by
        intro hk
        rw [hx, hk] at h
        exact lt_irrefl k h
      rw [insertDescBy, if_pos h]
      simp only [List.filter_cons, hy, decide_eq_true_eq, if_neg hy]
      simpa [hy] using ih
    · rw [insertDescBy, if_neg h]
      simp [List.filter_cons, hx]

theorem filter_insertDescBy_of_ne {α β : Type} [LinearOrder β] (key : α → β) (x : α)
    (l : List α) (k : β) (hx : ¬(key x = k)) :
    (insertDescBy key x l).filter (fun a => decide (key a = k)) =
      l.filter (fun a => decide (key a = k)) := by
  induction l with
  | nil => simp [insertDescBy, hx]
  | cons y ys ih =>
    by_cases h : key x < key y
    · rw [insertDescBy, if_pos h]
      simp only [List.filter_cons]
      rw [ih]
    · rw [insertDescBy, if_neg h]
      simp [List.filter_cons, hx]

theorem filter_sortDescBy {α β : Type} [LinearOrder β] (key : α → β) (l : List α) (k : β) :
    (sortDescBy key l).filter (fun a => decide (key a = k)) =
      l.filter (fun a => decide (key a = k)) := by
  induction l with
  | nil => rfl
  | cons x xs ih =>
    by_cases hx : key x = k
    · rw [sortDescBy, filter_insertDescBy_of_eq key x _ k hx, ih]
      simp [List.filter_cons, hx]
    · rw [sortDescBy, filter_insertDescBy_of_ne key x _ k hx, ih]
      simp [List.filter_cons, hx]

/-! The greedy subsequence scan is exactly the subsequence relation. -/

theorem subseqScan_iff_sublist (hs q : List Char) :
    subseqScan hs q = true ↔ List.Sublist q hs := by
  induction hs generalizing q with
  | nil =>
    cases q with
    | nil => simp [subseqScan]
    | cons c cs => simp [subseqScan]
  | cons h t ih =>
    cases q with
    | nil => simp [subseqScan, List.nil_sublist]
    | cons c cs =>
      by_cases hc : h = c
      · subst hc
        rw [subseqScan, if_pos (by simp)]
        rw [ih cs, List.cons_sublist_cons]
      · rw [subseqScan, if_neg (by simp [hc])]
        rw [ih (c :: cs)]
        constructor
        · exact fun hsub => hsub.cons h
        · intro hsub
          cases hsub with
          | cons _ hsub => exact hsub
          | cons₂ _ hsub => exact absurd rfl hc

/-! Facts about `indexOfSub` and the `scoreItem` branches. -/

theorem indexOfSub_eq_zero_iff (q h : List Char) :
    indexOfSub q h = some 0 ↔ q.isPrefixOf h = true := by
  cases h with
  | nil =>
    cases q with
    | nil => simp [indexOfSub, List.isPrefixOf]
    | cons c cs => simp [indexOfSub, List.isPrefixOf]
  | cons c rest =>
    rw [indexOfSub]
    by_cases hp : q.isPrefixOf (c :: rest) = true
    · simp [hp]
    · cases hidx : indexOfSub q rest <;> simp [hp, hidx]

theorem scoreItem_exact (q : List Char) (e : IndexEntry) (hq : q.isEmpty = false)
    (he : scoreHaystack e = q) : scoreItem q e = 100 + scoreBase e := by
  simp [scoreItem, hq, he]

theorem scoreItem_prefixCase (q : List Char) (e : IndexEntry) (hq : q.isEmpty = false)
    (hne : ¬(scoreHaystack e = q)) (hp : q.isPrefixOf (scoreHaystack e) = true) :
    scoreItem q e = 80 + scoreBase e := by
  simp [scoreItem, hq, hne, hp]

theorem scoreItem_substr (q : List Char) (e : IndexEntry) (j : Nat) (hq : q.isEmpty = false)
    (hj : indexOfSub q (scoreHaystack e) = some j) (hj1 : 1 ≤ j) :
    scoreItem q e = 60 - min (j : Int) 50 + scoreBase e := by
  have hnp : ¬(q.isPrefixOf (scoreHaystack e) = true) := by
    intro hp
    rw [← indexOfSub_eq_zero_iff, hj] at hp
    have := Option.some.inj hp
    omega
  have hne : ¬(scoreHaystack e = q) := by
    intro he
    apply hnp
    rw [he]
    exact List.isPrefixOf_iff_prefix.mpr (List.prefix_refl q)
  simp [scoreItem, hq, hne, hnp, hj]

theorem scoreBase_nonneg (e : IndexEntry) : 0 ≤ scoreBase e := by
  rw [scoreBase]
  by_cases h : e.level.head? = some 'h' <;> simp [h]

theorem scoreBase_le_five (e : IndexEntry) : scoreBase e ≤ 5 := by
  rw [scoreBase]
  by_cases h : e.level.head? = some 'h' <;> simp [h]

/-- Claim C5: in the Page Indexer's ranking, an exact match always scores
strictly higher than any prefix match, a prefix match always scores
strictly higher than any interior substring match (first occurrence at a
positive position), and a substring match whose first occurrence is at
position 0 scores strictly higher than one at position 50 or beyond,
across all entry kinds (heading base bonus included). -/
theorem claim_C5 : ∀ (q : List Char) (e1 e2 : IndexEntry), q.isEmpty = false →
    ((scoreHaystack e1 = q → ¬(scoreHaystack e2 = q) →
        q.isPrefixOf (scoreHaystack e2) = true → scoreItem q e2 < scoreItem q e1)
  ∧ (¬(scoreHaystack e1 = q) → q.isPrefixOf (scoreHaystack e1) = true →
      ∀ j, indexOfSub q (scoreHaystack e2) = some j → 1 ≤ j →
        scoreItem q e2 < scoreItem q e1)
  ∧ (∀ j, indexOfSub q (scoreHaystack e1) = some 0 →
      indexOfSub q (scoreHaystack e2) = some j → 50 ≤ j →
        scoreItem q e2 < scoreItem q e1)) := by
  intro q e1 e2 hq
  have hb1l := scoreBase_le_five e1
  have hb1n := scoreBase_nonneg e1
  have hb2l := scoreBase_le_five e2
  have hb2n := scoreBase_nonneg e2
  refine ⟨?_, ?_, ?_⟩
  · intro h1 h2 h3
    rw [scoreItem_exact q e1 hq h1, scoreItem_prefixCase q e2 hq h2 h3]
    omega
  · intro h1 h2 j hj hj1
    rw [scoreItem_prefixCase q e1 hq h1 h2, scoreItem_substr q e2 j hq hj hj1]
    have hm1 : (1 : Int) ≤ min (j : Int) 50 := le_min (by exact_mod_cast hj1) (by norm_num)
    have hm2 : min (j : Int) 50 ≤ 50 := min_le_right _ _
    omega
  · intro j h0 hj hj50
    have hp1 : q.isPrefixOf (scoreHaystack e1) = true := (indexOfSub_eq_zero_iff q _).mp h0
    have hmin : min (j : Int) 50 = 50 := min_eq_right (by exact_mod_cast hj50)
    have hs2 : scoreItem q e2 = 60 - min (j : Int) 50 + scoreBase e2 :=
      scoreItem_substr q e2 j hq hj (by omega)
    by_cases hx : scoreHaystack e1 = q
    · rw [scoreItem_exact q e1 hq hx, hs2, hmin]
      omega
    · rw [scoreItem_prefixCase q e1 hq hx hp1, hs2, hmin]
      omega

/-- Witness for claim C5 at concrete entries: an exact match on
`searchText` "a" beats a prefix match on "ax"; that prefix match beats a
substring match at position 1 ("xa"); a substring match at position 0
beats one at position 50. -/
theorem claim_C5_witness :
    (scoreItem (str "a")
        { id := [], title := [], level := str "p", parentTitle := [], searchText := str "ax" } <
      scoreItem (str "a")
        { id := [], title := [], level := str "p", parentTitle := [], searchText := str "a" })
  ∧ (scoreItem (str "a")
        { id := [], title := [], level := str "p", parentTitle := [], searchText := str "xa" } <
      scoreItem (str "a")
        { id := [], title := [], level := str "h1", parentTitle := [], searchText := str "ax" })
  ∧ (scoreItem (str "a")
        { id := [], title := [], level := str "h1", parentTitle := [],
          searchText := List.replicate 50 'x' ++ [Char.ofNat 97] } <
      scoreItem (str "a")
        { id := [], title := [], level := str "p", parentTitle := [], searchText := str "ab" }) := by
  refine ⟨?_, ?_, ?_⟩
  · exact (claim_C5 (str "a") _ _ (by decide)).1 (by decide) (by decide) (by decide)
  · exact (claim_C5 (str "a") _ _ (by decide)).2.1 (by decide) (by decide) 1 (by decide) (by decide)
  · exact (claim_C5 (str "a") _ _ (by decide)).2.2 50 (by decide) (by decide) (by decide)

/-! Characterizing the tree traversal of `buildIndex` as the flat fold
over the walker output, then as the specification-side rebuild. -/

theorem recordElem_skip (b : UrlParts) (lh : Option (List Char)) (c : Nat)
    (t : List Char) (m : Option (List Char)) (a : List (List Char × List Char))
    (cs : List DomNode) (h : (isHeadingTag t || t = str "p" || t = str "a") = false) :
    recordElem b lh c t m a cs = (none, m, c, lh) := by
  simp only [Bool.or_eq_false_iff, decide_eq_false_iff_not] at h
  rw [recordElem, if_neg (by simp [h.1.1]), if_neg h.1.2, if_neg h.2]

theorem foldBuild_append (b : UrlParts) (lh : Option (List Char)) (c : Nat)
    (xs ys : List DomNode) :
    foldBuild b lh c (xs ++ ys) =
      ((foldBuild b lh c xs).1 ++
          (foldBuild b (foldBuild b lh c xs).2.2 (foldBuild b lh c xs).2.1 ys).1,
        (foldBuild b (foldBuild b lh c xs).2.2 (foldBuild b lh c xs).2.1 ys).2) := by
  induction xs generalizing lh c with
  | nil => simp [foldBuild]
  | cons n rest ih =>
    cases n with
    | text s => simp [foldBuild, ih]
    | elem t m a cs => simp [foldBuild, ih]

theorem visitL_fst (b : UrlParts) (acc : BuildAcc) (cs : List DomNode) :
    (visitL b acc cs).1 =
      { entries := acc.entries ++ (foldBuild b acc.lastH acc.counter (walkL cs)).1,
        counter := (foldBuild b acc.lastH acc.counter (walkL cs)).2.1,
        lastH := (foldBuild b acc.lastH acc.counter (walkL cs)).2.2 } := by
  induction acc, cs using visitL.induct b with
  | case1 acc => simp [visitL, walkL, foldBuild]
  | case2 acc s rest ih => simpa [visitL, walkL] using ih
  | case3 acc t m a cs rest step acc1 rcs ihA ihB ihC =>
    unfold_let rcs acc1 step at ihC
    clear ihA
    simp only [visitL]
    rw [ihC, ihB]
    by_cases hacc : (isHeadingTag t || t = str "p" || t = str "a") = true
    · simp only [walkL, hacc, if_pos rfl, List.cons_append, List.nil_append,
        foldBuild, foldBuild_append]
      simp [List.append_assoc]
    · have hskip := recordElem_skip b acc.lastH acc.counter t m a cs
        (Bool.not_eq_true _ ▸ hacc)
      simp only [walkL, hacc, List.nil_append, foldBuild_append, hskip]
      simp [foldBuild, hskip, List.append_assoc]

theorem recordElem_lastH (b : UrlParts) (lh : Option (List Char)) (c : Nat)
    (t : List Char) (m : Option (List Char)) (a : List (List Char × List Char))
    (cs : List DomNode) :
    (recordElem b lh c t m a cs).2.2.2 =
      if isHeadingTag t then some (normalizeText (textContentL cs)) else lh := by
  rw [recordElem]
  by_cases h1 : isHeadingTag t = true
  · simp [h1]
  · simp only [h1, Bool.false_eq_true, if_false, if_neg h1]
    by_cases h2 : t = str "p"
    · simp only [h2, if_pos rfl]
      by_cases h3 : pGate lh (normalizeText (textContentL cs)) = true <;> simp [h3]
    · simp only [h2, if_neg h2]
      by_cases h4 : t = str "a"
      · simp only [h4, if_pos rfl]
        by_cases h5 :
            aGate lh (normalizeText (getElementSearchText b (str "a") a cs)) = true <;> simp [h5]
      · simp [h4]

theorem nearestHeadingTitle_nil : nearestHeadingTitle [] = none := rfl

theorem nearestHeadingTitle_append (pre : List DomNode) (n : DomNode) :
    nearestHeadingTitle (pre ++ [n]) =
      if isHeadingNodeB n then some (normalizeText (textContentN n))
      else nearestHeadingTitle pre := by
  rw [nearestHeadingTitle, List.filter_append]
  by_cases h : isHeadingNodeB n = true
  · simp [h, List.getLast?_concat]
  · simp only [List.filter_cons, h, Bool.false_eq_true, if_false, List.filter_nil,
      List.append_nil]
    simp [nearestHeadingTitle, h]

theorem foldBuild_eq_spec (b : UrlParts) (w : List DomNode) : ∀ (pre : List DomNode) (c : Nat),
    (foldBuild b (nearestHeadingTitle pre) c w).1 = specBuildGo b pre c w := by
  induction w with
  | nil => intro pre c; rfl
  | cons n rest ih =>
    intro pre c
    cases n with
    | text s =>
      rw [foldBuild, specBuildGo]
      have hn : nearestHeadingTitle (pre ++ [DomNode.text s]) = nearestHeadingTitle pre := by
        rw [nearestHeadingTitle_append]
        rfl
      rw [← hn, ih]
    | elem t m a cs =>
      rw [foldBuild, specBuildGo]
      have hlast : (recordElem b (nearestHeadingTitle pre) c t m a cs).2.2.2 =
          nearestHeadingTitle (pre ++ [DomNode.elem t m a cs]) := by
        rw [recordElem_lastH, nearestHeadingTitle_append]
        rfl
      rw [hlast, ih]

/-- Shared bridge: `buildIndex` produces exactly the specification-side
rebuild over the document-order walk. -/
theorem buildIndexEntries_eq_spec (b : UrlParts) (root : DomNode) :
    buildIndexEntries b root = specBuild b (walkDoc root) := by
  rw [buildIndexEntries, visitL_fst, specBuild, walkDoc, ← foldBuild_eq_spec b _ [] 0]
  rw [nearestHeadingTitle_nil]
  simp

/-- Claim C4: for every document, `buildIndex` produces its entries in
document order, and every paragraph and link entry's `parentTitle` is the
normalized text of the nearest preceding heading of the walk (never a
later one): the produced list is exactly the specification-side rebuild,
which emits entries in walker order and sets `parentTitle` from
`nearestHeadingTitle` of the strictly preceding prefix. -/
theorem claim_C4 (b : UrlParts) (root : DomNode) :
    buildIndexEntries b root = specBuild b (walkDoc root) :=
  buildIndexEntries_eq_spec b root

theorem nearestHeadingTitle_isSome (pre : List DomNode) :
    (nearestHeadingTitle pre).isSome = true ↔ pre.any isHeadingNodeB = true := by
  rw [nearestHeadingTitle]
  rcases h : (pre.filter isHeadingNodeB).getLast? with _ | n
  · rw [List.getLast?_eq_none_iff] at h
    simp only [h, Option.map_none', Option.isSome_none]
    constructor
    · intro hh
      exact absurd hh (by simp)
    · intro hh
      rcases List.any_eq_true.mp hh with ⟨x, hx, hpx⟩
      have : x ∈ pre.filter isHeadingNodeB := List.mem_filter.mpr ⟨hx, hpx⟩
      rw [h] at this
      cases this
  · simp only [Option.map_some', Option.isSome_some, true_iff]
    have hmem := List.mem_of_mem_getLast? (l := pre.filter isHeadingNodeB) (a := n) h
    rcases List.mem_filter.mp hmem with ⟨hx, hpx⟩
    exact List.any_eq_true.mpr ⟨n, hx, hpx⟩

/-- Claim C7: a paragraph element at position `i` of the document-order
walk is recorded by the rebuild exactly when some heading element
strictly precedes it in the walk and its normalized text has at least 20
characters; the first conjunct ties the rebuild (whose step at position
`i` applies `pGate` at the prefix `take i`) to `buildIndex` itself. -/
theorem claim_C7 : ∀ (b : UrlParts) (root : DomNode) (i : Nat) (n : DomNode),
    (walkDoc root).get? i = some n →
    nodeTag n = str "p" →
    (buildIndexEntries b root = specBuild b (walkDoc root) ∧
      (pGate (nearestHeadingTitle ((walkDoc root).take i))
          (normalizeText (textContentN n)) = true ↔
        (((walkDoc root).take i).any isHeadingNodeB = true ∧
          20 ≤ (normalizeText (textContentN n)).length))) := by
  intro b root i n hget hp
  refine ⟨buildIndexEntries_eq_spec b root, ?_⟩
  rw [pGate, Bool.and_eq_true]
  set txt := normalizeText (textContentN n) with htxt
  constructor
  · rintro ⟨h1, h2⟩
    refine ⟨(nearestHeadingTitle_isSome _).mp (by simpa using h1), ?_⟩
    simp only [Bool.not_eq_true', Bool.or_eq_false_iff] at h2
    have hlen : ¬(txt.length < 20) := by simpa using h2.2
    omega
  · rintro ⟨h1, h2⟩
    refine ⟨by simpa using (nearestHeadingTitle_isSome _).mpr h1, ?_⟩
    have hne : txt.isEmpty = false := by
      rcases hx : txt with _ | _
      · rw [hx] at h2
        simp at h2
      · rfl
    simp [hne]
    omega

/-- Witness for claim C7 on a concrete heading-plus-paragraph document:
the paragraph at walk position 1 passes the recording gate, a heading
preceding it and its normalized text being 23 characters long. -/
theorem claim_C7_witness :
    buildIndexEntries { host := [], path := [] } c7Root =
        specBuild { host := [], path := [] } (walkDoc c7Root) ∧
      pGate (nearestHeadingTitle ((walkDoc c7Root).take 1))
        (normalizeText
          (textContentN
            (DomNode.elem (str "p") none [] [DomNode.text (str "This paragraph is long.")]))) =
        true := by
  have hget : (walkDoc c7Root).get? 1 =
      some (DomNode.elem (str "p") none [] [DomNode.text (str "This paragraph is long.")]) := by
    simp +decide [walkDoc, c7Root, childrenOf, walkL]
  have h := claim_C7 { host := [], path := [] } c7Root 1
    (DomNode.elem (str "p") none [] [DomNode.text (str "This paragraph is long.")])
    hget (by decide)
  refine ⟨h.1, h.2.mpr ⟨?_, ?_⟩⟩
  · simp +decide [walkDoc, c7Root, childrenOf, walkL, isHeadingNodeB, nodeTag]
  · simp +decide [textContentN, textContentL, normalizeText, squashWs, trimWs]

theorem recordElem_wf (b : UrlParts) (lh : Option (List Char)) (c : Nat)
    (t : List Char) (m : Option (List Char)) (a : List (List Char × List Char))
    (cs : List DomNode) (e : IndexEntry)
    (h : (recordElem b lh c t m a cs).1 = some e) : entryWf e := by
  rw [recordElem] at h
  by_cases h1 : isHeadingTag t = true
  · rw [if_pos h1] at h
    simp only [Option.some.injEq] at h
    subst h
    refine ⟨fun hh => hh, ?_⟩
    simp only
    have : t = str "h1" ∨ t = str "h2" ∨ t = str "h3" ∨ t = str "h4" ∨ t = str "h5" ∨
        t = str "h6" := by
      rw [isHeadingTag] at h1
      have := List.contains_iff_exists_mem_beq.mp h1
      simpa using this
    rcases this with rfl | rfl | rfl | rfl | rfl | rfl <;> decide
  · rw [if_neg h1] at h
    by_cases h2 : t = str "p"
    · rw [if_pos h2] at h
      by_cases h3 : pGate lh (normalizeText (textContentL cs)) = true
      · rw [if_pos h3] at h
        simp only [Option.some.injEq] at h
        subst h
        constructor
        · intro hh
          simp only [List.isEmpty_iff, List.append_eq_nil] at hh
          simp [List.isEmpty_iff, hh.2]
        · show (str "p").head? = some 'h' ↔ isHeadingTag (str "p") = true
          decide
      · rw [if_neg h3] at h
        cases h
    · rw [if_neg h2] at h
      by_cases h4 : t = str "a"
      · rw [if_pos h4] at h
        by_cases h5 : aGate lh (normalizeText (getElementSearchText b t a cs)) = true
        · rw [if_pos h5] at h
          simp only [Option.some.injEq] at h
          subst h
          constructor
          · intro hh
            simp only [List.isEmpty_iff, List.append_eq_nil] at hh
            simp [List.isEmpty_iff, hh.2]
          · show (str "a").head? = some 'h' ↔ isHeadingTag (str "a") = true
            decide
        · rw [if_neg h5] at h
          cases h
      · rw [if_neg h4] at h
        cases h

theorem foldBuild_wf (b : UrlParts) (w : List DomNode) : ∀ (lh : Option (List Char)) (c : Nat)
    (e : IndexEntry), e ∈ (foldBuild b lh c w).1 → entryWf e := by
  induction w with
  | nil => intro lh c e he; cases he
  | cons n rest ih =>
    intro lh c e he
    cases n with
    | text s => exact ih _ _ e he
    | elem t m a cs =>
      rw [foldBuild] at he
      rcases List.mem_append.mp he with hl | hr
      · rcases ho : (recordElem b lh c t m a cs).1 with _ | e2
        · rw [ho] at hl
          cases hl
        · rw [ho] at hl
          simp only [Option.toList_some, List.mem_singleton] at hl
          subst hl
          exact recordElem_wf b lh c t m a cs e ho
      · exact ih _ _ e hr

theorem buildIndexEntries_wf (b : UrlParts) (root : DomNode) (e : IndexEntry)
    (he : e ∈ buildIndexEntries b root) : entryWf e := by
  rw [buildIndexEntries, visitL_fst] at he
  simp only [List.nil_append] at he
  exact foldBuild_wf b _ _ _ e he

/-- Claim C1: on every entry `buildIndex` can produce, `scoreItem` agrees
with the claim's score cascade over the entry's `searchText` (base 5 for
heading entries, 0 otherwise), for every normalized lowercased query; and
the greedy scan of the final branch recognizes exactly the subsequence
relation the claim describes. -/
theorem claim_C1 :
    (∀ (b : UrlParts) (root : DomNode) (rawQuery : List Char) (e : IndexEntry),
        e ∈ buildIndexEntries b root →
          scoreItem (lowerL (normalizeText rawQuery)) e =
            claimScore (lowerL (normalizeText rawQuery)) e)
  ∧ (∀ hs q : List Char, subseqScan hs q = true ↔ List.Sublist q hs) := by
  constructor
  · intro b root rq e hmem
    obtain ⟨hwf1, hwf2⟩ := buildIndexEntries_wf b root e hmem
    have hbase : scoreBase e = (if isHeadingTag e.level then (5 : Int) else 0) := by
      rw [scoreBase]
      by_cases h : isHeadingTag e.level = true
      · rw [if_pos (hwf2.mpr h), if_pos h]
      · rw [if_neg (fun hh => h (hwf2.mp hh)), if_neg (fun hh => h hh)]
    have hhay : scoreHaystack e = lowerL e.searchText := by
      rw [scoreHaystack]
      by_cases h : e.searchText.isEmpty = true
      · have ht := hwf1 h
        rw [List.isEmpty_iff] at h ht
        rw [if_pos (by simp [h]), ht, h]
      · rw [if_neg (by simp [List.isEmpty_iff] at h ⊢; exact h)]
    simp only [scoreItem, claimScore, hbase, hhay]
  · exact subseqScan_iff_sublist

/-- Witness for claim C1: the heading entry of a concrete one-heading
document scores identically under `scoreItem` and the claim's cascade. -/
theorem claim_C1_witness :
    scoreItem (lowerL (normalizeText (str "hi")))
        { id := str "ext-jump-1", title := str "Hi", level := str "h1", parentTitle := [],
          searchText := str "Hi" } =
      claimScore (lowerL (normalizeText (str "hi")))
        { id := str "ext-jump-1", title := str "Hi", level := str "h1", parentTitle := [],
          searchText := str "Hi" } := by
  refine claim_C1.1 { host := [], path := [] } c1Root (str "hi") _ ?_
  have : buildIndexEntries { host := [], path := [] } c1Root =
      [{ id := str "ext-jump-1", title := str "Hi", level := str "h1", parentTitle := [],
         searchText := str "Hi" }] := by
    simp +decide [buildIndexEntries, c1Root, childrenOf, visitL, recordElem, ensureId,
      textContentL, normalizeText, squashWs, trimWs, str, Nat.repr, Nat.toDigits,
      Nat.toDigitsCore, Nat.digitChar]
  rw [this]
  exact List.mem_singleton.mpr rfl

/-- Claim C9: `getSuggestions` is deterministic — a second call on the
state the first returned (no intervening mutation) yields the same
ordered list — and its sort is stable: for every score value, the
equal-score entries of the sorted list are exactly the equal-score
entries of the input in their original (document) order. -/
theorem claim_C9 :
    (∀ (st : IndexerState) (q : List Char) (limit : Nat),
        (getSuggestions (getSuggestions st q limit).2 q limit).1 =
          (getSuggestions st q limit).1)
  ∧ (∀ (l : List ScoredItem) (s : Int),
        (sortDescBy (fun x => x.score) l).filter (fun x => decide (x.score = s)) =
          l.filter (fun x => decide (x.score = s))) := by
  constructor
  · intro st q limit
    have hb : (freshState st).isIndexed = true := by
      rw [freshState]
      by_cases h : st.isIndexed = true
      · rw [if_pos h]
        exact h
      · rw [if_neg h]
        rfl
    have hfresh : freshState (freshState st) = freshState st := by
      rw [freshState, if_pos hb]
    simp only [getSuggestions]
    rw [hfresh]
  · intro l s
    exact filter_sortDescBy (fun x => x.score) l s

/-- Claim C10: with `limit = 0` (falsy, so `limit ? ... : ...` skips the
slice) `getSuggestions` returns the whole ranked list — one suggestion
per index entry with non-negative score — not an empty list. -/
theorem claim_C10 : ∀ (st : IndexerState) (q : List Char),
    (getSuggestions st q 0).1 =
        (rankedFor (freshState st) q).map (displaySuggestion (freshState st).baseHref)
  ∧ (getSuggestions st q 0).1.length =
      ((freshState st).index.filter
          (fun it => decide (0 ≤ scoreItem (lowerL (normalizeText q)) it))).length := by
  intro st q
  constructor
  · simp [getSuggestions]
  · simp only [getSuggestions]
    rw [if_neg (by simp : ¬((0 : Nat) ≠ 0))]
    rw [List.length_map, rankedFor, length_sortDescBy, scoredFor, List.filter_map,
      List.length_map]
    rfl

theorem indexOfSub_sep (raw : List Char) : ∀ (frame : List Char), frame ≠ [] →
    indexOfSub (str "::") frame = none → frame.getLast? ≠ some ':' →
    indexOfSub (str "::") (frame ++ str "::" ++ raw) = some frame.length := by
  intro frame
  induction frame with
  | nil => intro hne; exact absurd rfl hne
  | cons c rest ih =>
    intro _ hnone hlast
    cases rest with
    | nil =>
      have hc : ¬(c = ':') := by
        intro hcc
        exact hlast (by simp [hcc])
      have hc2 : ¬(':' = c) := fun hh => hc hh.symm
      show indexOfSub (str "::") (([c] ++ [':', ':']) ++ raw) = some 1
      rw [List.singleton_append, List.cons_append, indexOfSub,
        if_neg (by simp [List.isPrefixOf, str, hc2]),
        List.cons_append, indexOfSub, if_pos (by simp [List.isPrefixOf, str])]
      rfl
    | cons d rest2 =>
      rw [indexOfSub] at hnone
      have hp : ¬((str "::").isPrefixOf (c :: d :: rest2) = true) := by
        intro hp
        rw [if_pos hp] at hnone
        cases hnone
      rw [if_neg hp] at hnone
      have hinner : indexOfSub (str "::") (d :: rest2) = none := by
        rcases hi : indexOfSub (str "::") (d :: rest2) with _ | k
        · rfl
        · rw [hi] at hnone
          simp at hnone
      have hlast2 : (d :: rest2).getLast? ≠ some ':' := by
        intro hl
        exact hlast (by rw [List.getLast?_cons_cons]; exact hl)
      have hrec := ih (List.cons_ne_nil d rest2) hinner hlast2
      have hshape : (c :: d :: rest2) ++ str "::" ++ raw =
          c :: ((d :: rest2) ++ str "::" ++ raw) := by
        simp
      rw [hshape, indexOfSub]
      have hp2 : ¬((str "::").isPrefixOf (c :: ((d :: rest2) ++ str "::" ++ raw)) = true) := by
        intro hh
        apply hp
        simp only [str, List.isPrefixOf, List.cons_append] at hh ⊢
        simpa using hh
      rw [if_neg hp2, hrec]
      rfl

/-- Claim C8: `scrollToId` accepts a frame-qualified or raw identifier
and strips the qualifier when present (first conjunct pair: a qualifier
whose frame part is non-empty, free of `::`, and does not end in `:` is
removed exactly; a raw id without `::` passes through); on a lookup miss
it rebuilds once and retries exactly once, returning true exactly when
either lookup finds a marked element; and the message handler always
answers with that boolean — a post-rebuild miss is `ok: false`, never a
thrown error. -/
theorem claim_C8 : ∀ (st : IndexerState) (id frame raw : List Char),
    (frame ≠ [] → indexOfSub (str "::") frame = none → frame.getLast? ≠ some ':' →
      stripFrameQualifier (frame ++ str "::" ++ raw) = raw)
  ∧ (indexOfSub (str "::") id = none → stripFrameQualifier id = id)
  ∧ ((scrollToId st id).1 =
      (hasMark st.root (stripFrameQualifier id) ||
        hasMark (buildIndexSt st).root (stripFrameQualifier id)))
  ∧ ((scrollToId st id).2 =
      if hasMark st.root (stripFrameQualifier id) = true then st else buildIndexSt st)
  ∧ (handleContentMsg st (ContentMsg.scrollToMsg id) =
      (ContentResp.scrolled (scrollToId st id).1, (scrollToId st id).2)) := by
  intro st id frame raw
  refine ⟨?_, ?_, ?_, ?_, ?_⟩
  · intro h1 h2 h3
    rw [stripFrameQualifier, indexOfSub_sep raw frame h1 h2 h3]
    show (if 0 < frame.length then List.drop (frame.length + 2) (frame ++ str "::" ++ raw)
      else frame ++ str "::" ++ raw) = raw
    rw [if_pos (List.length_pos.mpr h1)]
    have : frame ++ str "::" ++ raw = (frame ++ str "::") ++ raw := by simp
    rw [this, show frame.length + 2 = (frame ++ str "::").length by simp [str],
      List.drop_left]
  · intro h
    rw [stripFrameQualifier, h]
  · rw [scrollToId]
    by_cases h : hasMark st.root (stripFrameQualifier id) = true
    · rw [if_pos h]
      simp [h]
    · rw [if_neg h]
      simp [Bool.not_eq_true _ ▸ h]
  · rw [scrollToId]
    by_cases h : hasMark st.root (stripFrameQualifier id) = true
    · rw [if_pos h, if_pos h]
    · rw [if_neg h, if_neg h]
  · rfl

/-- Witness for claim C8 on a concrete state: the qualified identifier
`f::ext-jump-9` is stripped to `ext-jump-9`, no element carries that
marker before or after the rebuild, and the handler reports `ok: false`. -/
theorem claim_C8_witness :
    stripFrameQualifier (str "f" ++ str "::" ++ str "ext-jump-9") = str "ext-jump-9"
  ∧ (scrollToId
        { baseHref := str "http://x/", base := { host := str "x", path := str "/" },
          root := c8Root, isIndexed := false, index := [] }
        (str "f" ++ str "::" ++ str "ext-jump-9")).1 =
      (hasMark c8Root (stripFrameQualifier (str "f" ++ str "::" ++ str "ext-jump-9")) ||
        hasMark
          (buildIndexSt
            { baseHref := str "http://x/", base := { host := str "x", path := str "/" },
              root := c8Root, isIndexed := false, index := [] }).root
          (stripFrameQualifier (str "f" ++ str "::" ++ str "ext-jump-9"))) := by
  have h := claim_C8
    { baseHref := str "http://x/", base := { host := str "x", path := str "/" },
      root := c8Root, isIndexed := false, index := [] }
    (str "f" ++ str "::" ++ str "ext-jump-9") (str "f") (str "ext-jump-9")
  exact ⟨h.1 (by decide) (by decide) (by decide), h.2.2.1⟩

/-- Claim C6: the crawler's score is exactly the claim's formula (+30
title-starts, additively +20 title-contains, `10 + max(0, 20 - idx/50)`
for a body hit, 0 for the empty query); `CRAWL_SEARCH` returns nothing
for the empty query, keeps only positive scores, sorts descending, and
caps the result list at 20 rows. -/
theorem claim_C6 :
    (∀ q text title, crawlScore q text title = claimCrawlScore q text title)
  ∧ (∀ pm, crawlSearch pm [] = [])
  ∧ (∀ pm q, (crawlSearch pm q).length ≤ 20)
  ∧ (∀ pm q, (sortedItems pm q).Pairwise (fun a b => b.score ≤ a.score))
  ∧ (∀ pm q it, it ∈ sortedItems pm q → 0 < it.score)
  ∧ (∀ pm q, crawlSearch pm q = ((sortedItems pm q).take 20).map (fun it =>
      { id := str "crawl:" ++ it.url, level := str "site",
        title := it.title ++ str " — " ++ it.url, url := it.url,
        fragment := buildTextFragment it.text q })) := by
  refine ⟨fun q text title => rfl, ?_, ?_, ?_, ?_, fun pm q => rfl⟩
  · intro pm
    have hsi : searchItems pm [] = [] := by
      induction pm with
      | nil => rfl
      | cons e rest ih =>
        rw [searchItems, List.filterMap_cons]
        have hs : crawlScore [] e.2.text e.2.title = 0 := by
          simp [crawlScore, lowerL]
        simp only [hs, lt_irrefl, if_false, if_neg (lt_irrefl (0 : ℚ))]
        exact ih
    rw [crawlSearch, sortedItems, hsi]
    rfl
  · intro pm q
    rw [crawlSearch, List.length_map, List.length_take]
    exact min_le_left _ _
  · intro pm q
    exact pairwise_sortDescBy _ _
  · intro pm q it hmem
    have hmem2 : it ∈ searchItems pm q := by
      rw [sortedItems] at hmem
      exact (mem_sortDescBy (fun it => it.score) it _).mp hmem
    rcases List.mem_filterMap.mp hmem2 with ⟨e, _, hfe⟩
    by_cases hpos : 0 < crawlScore q e.2.text e.2.title
    · simp only [if_pos hpos] at hfe
      rw [Option.some.injEq] at hfe
      rw [← hfe]
      exact hpos
    · simp only [if_neg hpos] at hfe
      cases hfe

/-- Witness for claim C6: on a one-page scope map whose title is "t" and
body "t body", the query "t" scores 30 + 20 + 30 = 80, the single sorted
item is that page, and its score is positive. -/
theorem claim_C6_witness :
    0 < (CrawlItem.mk (str "u") (str "t") 80 (str "t body")).score := by
  have h1 : (lowerL (str "t")).isEmpty = false := by decide
  have h2 : (lowerL (str "t")).isPrefixOf (lowerL (str "t")) = true := by decide
  have h3 : (indexOfSub (lowerL (str "t")) (lowerL (str "t"))).isSome = true := by decide
  have h4 : indexOfSub (lowerL (str "t")) (lowerL (str "t body")) = some 0 := by decide
  have hscore : crawlScore (str "t") (str "t body") (str "t") = 80 := by
    simp only [crawlScore, h1, h2, h3, h4, Bool.false_eq_true, if_false, if_true,
      Nat.cast_zero]
    norm_num
  have hitems :
      searchItems [(str "u", PageRec.mk (str "t") (str "t body") (str "u"))] (str "t") =
        [CrawlItem.mk (str "u") (str "t") 80 (str "t body")] := by
    rw [searchItems, List.filterMap_cons]
    simp only [hscore, if_pos (by norm_num : (0 : ℚ) < 80)]
    have hti : (str "t").isEmpty = false := by decide
    simp [hti]
  have hsorted :
      sortedItems [(str "u", PageRec.mk (str "t") (str "t body") (str "u"))] (str "t") =
        [CrawlItem.mk (str "u") (str "t") 80 (str "t body")] := by
    rw [sortedItems, hitems]
    rfl
  exact claim_C6.2.2.2.2.1 [(str "u", PageRec.mk (str "t") (str "t body") (str "u"))]
    (str "t") (CrawlItem.mk (str "u") (str "t") 80 (str "t body"))
    (by rw [hsorted]; exact List.mem_singleton.mpr rfl)

/-- Claim C2, evaluated on the code as modelled (the claim itself is
violated): a `CRAWL_START` for the scope already tracked starts no crawl
and replies `running` — but the tab-navigation auto-start path, with no
crawl tracked, invokes `crawl(tab.url)` twice for the new scope
`h|/c/` (the discarded `crawl(tab.url).then(...)` call plus the one
stored in the tracked handle), starting two sessions where the claim
allows at most one. -/
theorem claim_C2 :
    handleCrawlStart { currentCrawl := some (some (str "h|/c/")) } (str "https://h/c/s") =
      (StartResp.running (some (str "h|/c/")), { currentCrawl := some (some (str "h|/c/")) }, 0)
  ∧ handleTabUpdated { currentCrawl := none } (str "complete") (some (str "https://h/c/s")) =
      ({ currentCrawl := some (some (str "h|/c/")) }, 2) := by
  constructor
  · decide
  · decide

theorem spin_some_lt (pages : Nat) (pm : List (List Char × PageRec)) :
    ∀ (q v : List (List Char)) (u : List Char) (q1 v1 : List (List Char)),
    spin pages q v pm = (some u, q1, v1) → pages < MAX_PAGES_PER_CRAWL := by
  intro q
  induction q with
  | nil =>
    intro v u q1 v1 h
    rw [spin] at h
    cases h
  | cons x rest ih =>
    intro v u q1 v1 h
    rw [spin] at h
    by_cases hc : MAX_PAGES_PER_CRAWL ≤ pages
    · rw [if_pos hc] at h
      cases h
    · omega

theorem applyFetch_scope (st : CrawlSt) (u : List Char) (resp : Option PageData) :
    (applyFetch st u resp).scope = st.scope := by
  cases resp <;> rfl

theorem applyFetch_workers (st : CrawlSt) (u : List Char) (resp : Option PageData) :
    (applyFetch st u resp).workers = st.workers := by
  cases resp <;> rfl

theorem respinWorker_scope (st1 : CrawlSt) (w : Nat) :
    (respinWorker st1 w).scope = st1.scope := by
  rcases hs : spin st1.pages st1.queue st1.visited st1.pageMap with ⟨o, q1, v1⟩
  rw [respinWorker, hs]
  cases o <;> rfl

theorem crawlStep_scope (st : CrawlSt) (w : Nat) (resp : Option PageData) :
    (crawlStep st w resp).scope = st.scope := by
  rw [crawlStep]
  rcases hw : st.workers.get? w with _ | ws
  · rfl
  · cases ws with
    | done => rfl
    | fetching u => rw [respinWorker_scope, applyFetch_scope]

theorem crawlStep_inv (st : CrawlSt) (w : Nat) (resp : Option PageData)
    (hinv : crawlInv st) : crawlInv (crawlStep st w resp) := by
  obtain ⟨hcap, hroom, huniq, hlog⟩ := hinv
  rw [crawlStep]
  rcases hw : st.workers.get? w with _ | ws
  · exact ⟨hcap, hroom, huniq, hlog⟩
  cases ws with
  | done => exact ⟨hcap, hroom, huniq, hlog⟩
  | fetching u =>
    set st1 := applyFetch st u resp with hst1
    show crawlInv (respinWorker st1 w)
    have h1cap : st1.pages ≤ MAX_PAGES_PER_CRAWL := by
      rw [hst1]
      cases resp with
      | none => exact hcap
      | some p => simpa [applyFetch] using hroom w u hw
    have h1workers : st1.workers = st.workers := applyFetch_workers st u resp
    have h1scope : st1.scope = st.scope := applyFetch_scope st u resp
    have h1log : ∀ x ∈ st1.enqLog, inScopeB x st1.scope = true := by
      rw [hst1]
      cases resp with
      | none => simpa [applyFetch] using hlog
      | some p =>
        intro x hx
        simp only [applyFetch, applyFetch_scope] at hx ⊢
        rcases List.mem_append.mp hx with hxo | hxn
        · exact hlog x hxo
        · have hcond := (List.mem_filter.mp hxn).2
          simp only [Bool.and_eq_true] at hcond
          exact hcond.1.1
    rcases hs : spin st1.pages st1.queue st1.visited st1.pageMap with ⟨o, q1, v1⟩
    rw [respinWorker.eq_def, hs]
    cases o with
    | some u2 =>
      have hlt := spin_some_lt st1.pages st1.pageMap st1.queue st1.visited u2 q1 v1 hs
      simp only [crawlInv]
      refine ⟨h1cap, fun i u3 hi => by omega, ?_, ?_⟩
      · intro i j u3 v3 hi hj
        simp only [h1workers] at hi hj
        by_cases hiw : i = w
        · by_cases hjw : j = w
          · rw [hiw, hjw]
          · rw [List.get?_set_ne _ _ (fun hh => hjw hh.symm)] at hj
            exact absurd (huniq j w v3 u hj hw) hjw
        · rw [List.get?_set_ne _ _ (fun hh => hiw hh.symm)] at hi
          exact absurd (huniq i w u3 u hi hw) hiw
      · intro x hx
        have := h1log x hx
        simpa [h1scope] using this
    | none =>
      simp only [crawlInv]
      have hnone : ∀ (i : Nat) (u3 : List Char),
          (st1.workers.set w WStatus.done).get? i = some (WStatus.fetching u3) → False := by
        intro i u3 hi
        simp only [h1workers] at hi
        by_cases hiw : i = w
        · subst hiw
          by_cases hlen : i < st.workers.length
          · rw [List.get?_set_eq_of_lt _ hlen] at hi
            cases hi
          · rw [List.set_eq_of_length_le (by omega)] at hi
            rw [List.get?_eq_none.mpr (by omega)] at hi
            cases hi
        · rw [List.get?_set_ne _ _ (fun hh => hiw hh.symm)] at hi
          exact hiw (huniq i w u3 u hi hw)
      refine ⟨h1cap, ?_, ?_, ?_⟩
      · intro i u3 hi
        exact absurd hi (fun hh => hnone i u3 hh)
      · intro i j u3 v3 hi _
        exact absurd hi (fun hh => hnone i u3 hh)
      · intro x hx
        have := h1log x hx
        simpa [h1scope] using this

theorem runCrawl_scope (st : CrawlSt) (sched : List (Nat × Option PageData)) :
    (runCrawl st sched).scope = st.scope := by
  induction sched generalizing st with
  | nil => rfl
  | cons e rest ih =>
    rw [runCrawl, List.foldl_cons]
    rw [show List.foldl (fun s e => crawlStep s e.1 e.2) (crawlStep st e.1 e.2) rest =
      runCrawl (crawlStep st e.1 e.2) rest from rfl]
    rw [ih, crawlStep_scope]

theorem runCrawl_inv (st : CrawlSt) (sched : List (Nat × Option PageData))
    (hinv : crawlInv st) : crawlInv (runCrawl st sched) := by
  induction sched generalizing st with
  | nil => exact hinv
  | cons e rest ih =>
    rw [runCrawl, List.foldl_cons]
    exact ih (crawlStep st e.1 e.2) (crawlStep_inv st e.1 e.2 hinv)

theorem spin_nil (pages : Nat) (v : List (List Char)) (pm : List (List Char × PageRec)) :
    spin pages [] v pm = (none, [], v) := by
  rw [spin]

theorem startSession_inv (startUrl : List Char) (prior : List (List Char × PageRec))
    (st0 : CrawlSt) (h : startSession startUrl prior = some st0) : crawlInv st0 := by
  rw [startSession] at h
  rcases hsc : scopeFromUrl startUrl with _ | scope
  · rw [hsc] at h
    cases h
  rw [hsc] at h
  simp only [Option.some.injEq] at h
  subst h
  by_cases hskip :
      (startUrl.isEmpty || List.contains ([] : List (List Char)) startUrl ||
        mapHas prior startUrl) = true
  · have h1 : spin 0 [startUrl] [] prior = (none, [], []) := by
      rw [spin, if_neg (by decide), if_pos hskip, spin]
    have hval : startWorkers (min MAX_CONCURRENT 6)
        { scope := scope, workers := [], queue := [startUrl], visited := [],
          pageMap := prior, pages := 0, enqLog := [] } =
        { scope := scope,
          workers := [WStatus.done, WStatus.done, WStatus.done, WStatus.done],
          queue := [], visited := [], pageMap := prior, pages := 0, enqLog := [] } := by
      simp only [show min MAX_CONCURRENT 6 = 3 + 1 from by decide,
        show (3 : Nat) = 2 + 1 from rfl, show (2 : Nat) = 1 + 1 from rfl,
        show (1 : Nat) = 0 + 1 from rfl, startWorkers, h1, spin_nil]
      simp
    rw [hval]
    refine ⟨Nat.zero_le _, ?_, ?_, ?_⟩
    · intro i u3 hi
      rcases i with _ | _ | _ | _ | i <;> simp [List.get?] at hi
    · intro i j u3 v3 hi _
      rcases i with _ | _ | _ | _ | i <;> simp [List.get?] at hi
    · intro x hx
      cases hx
  · have h1 : spin 0 [startUrl] [] prior = (some startUrl, [], [startUrl]) := by
      rw [spin, if_neg (by decide), if_neg hskip]
    have hval : startWorkers (min MAX_CONCURRENT 6)
        { scope := scope, workers := [], queue := [startUrl], visited := [],
          pageMap := prior, pages := 0, enqLog := [] } =
        { scope := scope,
          workers := [WStatus.fetching startUrl, WStatus.done, WStatus.done, WStatus.done],
          queue := [], visited := [startUrl], pageMap := prior, pages := 0, enqLog := [] } := by
      simp only [show min MAX_CONCURRENT 6 = 3 + 1 from by decide,
        show (3 : Nat) = 2 + 1 from rfl, show (2 : Nat) = 1 + 1 from rfl,
        show (1 : Nat) = 0 + 1 from rfl, startWorkers, h1, spin_nil]
      simp
    rw [hval]
    refine ⟨Nat.zero_le _, ?_, ?_, ?_⟩
    · intro i u3 hi
      exact (by decide : (0 : Nat) + 1 ≤ MAX_PAGES_PER_CRAWL)
    · intro i j u3 v3 hi hj
      rcases i with _ | _ | _ | _ | i <;> rcases j with _ | _ | _ | _ | j <;>
        simp [List.get?] at hi hj ⊢
    · intro x hx
      cases hx

/-- Claim C3: for every crawl session (any seed, any pre-existing scope
map, any order and outcome of fetch completions), every URL the session
enqueues satisfies `inScope` for the seed's scope — same host, pathname
extending the scope's top path segment prefix — and the session never
indexes more than `MAX_PAGES_PER_CRAWL` = 60 pages (the session counter,
which counts the scope-map insertions of this session, never exceeds
60). -/
theorem claim_C3 : ∀ (startUrl : List Char) (prior : List (List Char × PageRec))
    (sched : List (Nat × Option PageData)) (st0 : CrawlSt),
    startSession startUrl prior = some st0 →
    ((runCrawl st0 sched).pages ≤ MAX_PAGES_PER_CRAWL ∧
      ∀ u ∈ (runCrawl st0 sched).enqLog, inScopeB u st0.scope = true) := by
  intro startUrl prior sched st0 h
  have hinv : crawlInv (runCrawl st0 sched) :=
    runCrawl_inv st0 sched (startSession_inv startUrl prior st0 h)
  refine ⟨hinv.1, ?_⟩
  intro u hu
  have := hinv.2.2.2 u hu
  rwa [runCrawl_scope] at this

/-- Witness for claim C3: the session seeded at `https://h/c/s` (whose
dispatched state is `c3Start`), after one successful fetch returning one
in-scope link, has indexed one page (within the cap) and enqueued only
the in-scope URL `https://h/c/x`. -/
theorem claim_C3_witness :
    (runCrawl c3Start
        [(0, some { title := [], text := [], links := [str "https://h/c/x"] })]).pages ≤
      MAX_PAGES_PER_CRAWL
  ∧ inScopeB (str "https://h/c/x") c3Start.scope = true := by
  have h0 : startSession (str "https://h/c/s") [] = some c3Start := by decide
  have h := claim_C3 (str "https://h/c/s") []
    [(0, some { title := [], text := [], links := [str "https://h/c/x"] })] c3Start h0
  exact ⟨h.1, h.2 (str "https://h/c/x") (by decide)⟩
